import Mathlib

/-!
Verification of the CloudBalancer load balancer core against its
specification.  The Go source is shallowly embedded: Go strings are
modelled as `List Char` where their structure matters, Go `float64`
rate values as `ℚ` (store/compare only, no float rounding is relied
upon), Go `int` as `ℤ`/`ℕ`, and the mutable structures
(round-robin cursor, token-bucket maps, backend health flag) as
explicit state passed through pure functions.
-/

deriving instance DecidableEq for Except

namespace CloudBalancer

/-- One upstream backend as the selection strategy and health checker see
it: its identifier and its health flag (`Backend.isHealthy` /
`Backend.SetHealthy` in `backend.go`).  The URL, proxy handler and
connection counter play no role in the claims and are omitted. -/
structure Backend where
  id : String
  healthy : Bool
deriving DecidableEq

/-- Indexing into the pool, `backends[i]` in Go, totalised with a dummy
backend (all uses are guarded by `i < bs.length`). -/
def getB (bs : List Backend) (i : Nat) : Backend :=
  (bs.get? i).getD ⟨"", false⟩

/-- The scan loop of `RoundRobinStrategy.NextBackend` (strategy.go):
`start` is the recorded entry cursor; each iteration reads
`backends[cur]`, advances the cursor to `(cur+1) mod len`, returns the
backend if healthy, and fails once the cursor has wrapped back to
`start`.  `fuel` bounds the recursion; the loop in Go is unbounded, and
we prove below that `fuel = backends.length` is never exhausted.  An
out-of-range index (impossible from the exported entry point) models
Go's panic as an error value. -/
def rrLoop (backends : List Backend) (start : Nat) :
    Nat → Nat → Except String Backend × Nat
  | 0, cur => (Except.error "out of fuel", cur)
  | fuel + 1, cur =>
    match backends.get? cur with
    | none => (Except.error "panic: index out of range", cur)
    | some b =>
      let cur' := (cur + 1) % backends.length
      if b.healthy then (Except.ok b, cur')
      else if cur' = start then
        (Except.error "no healthy backends available", cur')
      else rrLoop backends start fuel cur'

/-- Entry point `RoundRobinStrategy.NextBackend` (strategy.go): empty pool fails
with `"no backends available"`; otherwise the scan loop runs from the
current cursor.  Returns the result together with the new cursor. -/
def NextBackend (backends : List Backend) (current : Nat) :
    Except String Backend × Nat :=
  if backends.length = 0 then (Except.error "no backends available", current)
  else rrLoop backends current backends.length current

/-- Operation `loadBalancer.GetNextBackend` (load_balancer.go): delegates to the
strategy and propagates its error unchanged. -/
def GetNextBackend (backends : List Backend) (current : Nat) :
    Except String Backend × Nat :=
  match NextBackend backends current with
  | (Except.error e, c) => (Except.error e, c)
  | (Except.ok b, c) => (Except.ok b, c)

/-- Offset (relative to `c`) of the first healthy backend among the
next `fuel` positions scanned cyclically from `c`.  Used to state the
closed form of the round-robin scan. -/
def firstHealthyOff (bs : List Backend) : Nat → Nat → Option Nat
  | _, 0 => none
  | c, fuel + 1 =>
    if (getB bs (c % bs.length)).healthy then some 0
    else (firstHealthyOff bs (c + 1) fuel).map (· + 1)

/-- The Round-Robin algorithm as the spec states it (§4.2): with the
pool empty fail with `"no backends available"`; otherwise, scanning at
most `len(pool)` slots cyclically from the cursor `c`, return the first
healthy backend and leave the cursor one past it; if a full wrap finds
no healthy backend, fail with `"no healthy backends available"` with
the cursor back at its start value. -/
def roundRobinSpec (bs : List Backend) (c : Nat) :
    Except String Backend × Nat :=
  if bs.length = 0 then (Except.error "no backends available", c)
  else
    match firstHealthyOff bs c bs.length with
    | some k =>
      (Except.ok (getB bs ((c + k) % bs.length)), (c + k + 1) % bs.length)
    | none => (Except.error "no healthy backends available", c)

/-- Run of `N` sequential `NextBackend` calls threading the cursor, collecting
the results in order. -/
def runCalls (bs : List Backend) : Nat → Nat → List (Except String Backend) × Nat
  | c, 0 => ([], c)
  | c, n + 1 =>
    let r := NextBackend bs c
    let rest := runCalls bs r.2 n
    (r.1 :: rest.1, rest.2)

/-! ### Go strings

Where a claim depends on the structure of a Go string (splitting,
trimming), the string is modelled as a `List Char`. -/

/-- Go `strings.Split(s, sep)` for a one-character separator: the
pieces of `s` between occurrences of `sep`; always at least one
(possibly empty) piece. -/
def goSplitOn (sep : Char) : List Char → List (List Char)
  | [] => [[]]
  | c :: cs =>
    if c = sep then [] :: goSplitOn sep cs
    else
      match goSplitOn sep cs with
      | [] => [[c]]
      | t :: ts => (c :: t) :: ts

/-- Go `strings.TrimSpace`: drop leading and trailing whitespace
(whitespace approximated by `Char.isWhitespace`; the claims only
involve ordinary spaces). -/
def trimSpace (s : List Char) : List Char :=
  ((s.dropWhile Char.isWhitespace).reverse.dropWhile Char.isWhitespace).reverse

/-- Function `getClientID` (middleware, rate_limiter_middleware.go): the three
header fields as Go's `Header.Get` delivers them (`[]` when the header
is absent or empty). -/
def getClientID (apiKey forwardedFor remoteAddr : List Char) : List Char :=
  if apiKey ≠ [] then "api:".data ++ apiKey
  else if forwardedFor ≠ [] then
    trimSpace ((goSplitOn ',' forwardedFor).headD [])
  else (goSplitOn ':' remoteAddr).headD []

/-- The client-identifier rule as the spec states it (§4.7): `"api:"`
plus the `X-API-Key` value when present and non-empty; else the first
comma-separated token of `X-Forwarded-For`, trimmed; else the text of
the remote address up to (excluding) the first `':'`. -/
def specClientID (apiKey forwardedFor remoteAddr : List Char) : List Char :=
  if apiKey ≠ [] then "api:".data ++ apiKey
  else if forwardedFor ≠ [] then
    trimSpace (forwardedFor.takeWhile (fun c => c ≠ ','))
  else remoteAddr.takeWhile (fun c => c ≠ ':')

/-! ### Token bucket rate limiter

`TokenBucket` (rate_limiter.go) delegates token accounting to
`golang.org/x/time/rate.Limiter`, an external dependency not in this
repository.  Modelled from the spec: a standard continuous-refill
token bucket — capacity `burst`, refill `rate` tokens/second, one
token taken by each granted admission, a denied admission leaving the
token count unchanged; `rate.NewLimiter` starts with a zero last-event
time, which makes the bucket full at its first use, modelled as a full
bucket with last-event time `0`.  Time is `ℚ` seconds. -/

structure Bucket where
  rate : ℚ
  burst : ℚ
  tokens : ℚ
  last : ℚ
deriving DecidableEq

/-- Refill up to time `t`: tokens accumulate at `rate` per second since
`last`, capped at `burst`. -/
def Bucket.advance (b : Bucket) (t : ℚ) : Bucket :=
  { b with tokens := min b.burst (b.tokens + (t - b.last) * b.rate), last := t }

/-- Operation `Limiter.Allow` at time `t`: refill, then admit and take one token
exactly when at least one token is available. -/
def Bucket.allow (b : Bucket) (t : ℚ) : Bool × Bucket :=
  let b' := b.advance t
  if 1 ≤ b'.tokens then (true, { b' with tokens := b'.tokens - 1 })
  else (false, b')

/-- Constructor `rate.NewLimiter(rate.Limit(r), burst)`: a fresh limiter, full at
first use. -/
def newLimiter (r : ℚ) (burst : ℤ) : Bucket :=
  ⟨r, burst, burst, 0⟩

/-- Per-client limit record `UserLimits` (rate_limiter.go). -/
structure UserLimits where
  rate : ℚ
  burst : ℤ
deriving DecidableEq

/-- The state of a `TokenBucket` rate limiter: the defaults and the two
keyed maps `clientLimits` and `limiters` (`sync.Map`s in Go, modelled
as functions from the client id to an optional entry). -/
structure TBState where
  defaultRate : ℚ
  defaultBurst : ℤ
  clientLimits : List Char → Option UserLimits
  limiters : List Char → Option Bucket

/-- Point update of a keyed map. -/
def updKey {α : Type} (f : List Char → Option α) (k : List Char)
    (v : Option α) : List Char → Option α :=
  fun k' => if k' = k then v else f k'

/-- Operation `TokenBucket.GetClientLimits`: the stored entry, or a synthetic
record of the defaults when absent (no storage materialised). -/
def GetClientLimits (st : TBState) (id : List Char) : UserLimits :=
  (st.clientLimits id).getD ⟨st.defaultRate, st.defaultBurst⟩

/-- Operation `TokenBucket.SetClientLimits`: store the entry and replace the
limiter with a fresh one at the new limits. -/
def SetClientLimits (st : TBState) (id : List Char) (r : ℚ) (burst : ℤ) :
    TBState :=
  { st with
    clientLimits := updKey st.clientLimits id (some ⟨r, burst⟩)
    limiters := updKey st.limiters id (some (newLimiter r burst)) }

/-- Operation `TokenBucket.DeleteClientLimits`: remove the entry and the
limiter. -/
def DeleteClientLimits (st : TBState) (id : List Char) : TBState :=
  { st with
    clientLimits := updKey st.clientLimits id none
    limiters := updKey st.limiters id none }

/-- Operation `TokenBucket.UpdateClientLimits`: read the current limits (stored
or defaults), apply the mutator, store the result and replace the
limiter. -/
def UpdateClientLimits (st : TBState) (id : List Char)
    (updateFn : UserLimits → UserLimits) : TBState :=
  let limits := updateFn (GetClientLimits st id)
  { st with
    clientLimits := updKey st.clientLimits id (some limits)
    limiters := updKey st.limiters id (some (newLimiter limits.rate limits.burst)) }

/-- Operation `TokenBucket.getLimiter`: the stored limiter, or a fresh one seeded
from `GetClientLimits` and installed on first use. -/
def getLimiter (st : TBState) (id : List Char) : Bucket × TBState :=
  match st.limiters id with
  | some l => (l, st)
  | none =>
    let limits := GetClientLimits st id
    let l := newLimiter limits.rate limits.burst
    (l, { st with limiters := updKey st.limiters id (some l) })

/-- Operation `TokenBucket.Allow` at time `t`: fetch (or materialise) the
client's limiter and ask it for one token; the limiter mutates in
place in Go, modelled by storing the advanced bucket back. -/
def TBAllow (st : TBState) (id : List Char) (t : ℚ) : Bool × TBState :=
  let r := getLimiter st id
  let a := r.1.allow t
  (a.1, { r.2 with limiters := updKey r.2.limiters id (some a.2) })

/-- Run of `k` consecutive `Bucket.allow` calls at the same time `t`. -/
def allowRun (b : Bucket) (t : ℚ) : Nat → List Bool × Bucket
  | 0 => ([], b)
  | k + 1 =>
    let a := b.allow t
    let rest := allowRun a.2 t k
    (a.1 :: rest.1, rest.2)

/-- Run of `k` consecutive `TokenBucket.Allow` calls for one client at the
same time `t`. -/
def tbAllowRun (st : TBState) (id : List Char) (t : ℚ) :
    Nat → List Bool × TBState
  | 0 => ([], st)
  | k + 1 =>
    let a := TBAllow st id t
    let rest := tbAllowRun a.2 id t k
    (a.1 :: rest.1, rest.2)

/-! ### Admin rate-limit handler -/

/-- The request methods the handler switches on (`default` in the Go
switch collapses to `other`). -/
inductive Method where
  | get | post | put | delete | other
deriving DecidableEq

/-- A decoded `RateLimitRequest` body (`none` models a JSON decode
failure). -/
structure RLBody where
  rate : ℚ
  burst : ℤ
deriving DecidableEq

/-- What a handler call produces: the HTTP status, the `http.Error`
message (empty on success paths), and the limiter state afterwards. -/
structure HandlerResult where
  status : Nat
  msg : String
  state : TBState

/-- Handler `RateLimitHandler.HandleRateLimit` (rate_limit_handler.go): split
the path on `'/'`; fewer than four segments is a 400; the client id is
segment index 3, taken verbatim; then dispatch on the method — GET
reads (200), POST validates and creates (201), PUT validates and
updates (200), DELETE deletes (204), anything else 405. -/
def handleRateLimit (st : TBState) (m : Method) (path : List Char)
    (body : Option RLBody) : HandlerResult :=
  let parts := goSplitOn '/' path
  if parts.length < 4 then
    ⟨400, "Invalid URL format. Use /admin/ratelimit/{clientID}", st⟩
  else
    let clientID := parts.getD 3 []
    match m with
    | .get => ⟨200, "", st⟩
    | .post =>
      match body with
      | none => ⟨400, "Invalid request body", st⟩
      | some l =>
        if l.rate ≤ 0 ∨ l.burst ≤ 0 then
          ⟨400, "Rate and burst must be positive", st⟩
        else ⟨201, "", SetClientLimits st clientID l.rate l.burst⟩
    | .put =>
      match body with
      | none => ⟨400, "Invalid request body", st⟩
      | some l =>
        if l.rate ≤ 0 ∨ l.burst ≤ 0 then
          ⟨400, "Rate and burst must be positive", st⟩
        else
          ⟨200, "",
            UpdateClientLimits st clientID
              (fun ul => { ul with rate := l.rate, burst := l.burst })⟩
    | .delete => ⟨204, "", DeleteClientLimits st clientID⟩
    | .other => ⟨405, "Method not allowed", st⟩

/-! ### Health checker -/

/-- The outcome of one health probe of a backend
(`loadBalancer.checkBackendHealth`, load_balancer.go): the probe
request could not be built, or the transport call failed, or a
response with the given status code arrived. -/
inductive ProbeOutcome where
  | buildError
  | transportError
  | response (status : Int)
deriving DecidableEq

/-- Probe step `loadBalancer.checkBackendHealth`: map one probe outcome to the
backend's new state and the log messages emitted (transition
hysteresis included).  A build error returns early, leaving the
backend untouched; a transport error marks it unhealthy; a response
marks it healthy exactly when the status is 200. -/
def checkBackendHealth (b : Backend) (o : ProbeOutcome) :
    Backend × List String :=
  match o with
  | .buildError => (b, ["Failed to create health check request"])
  | .transportError =>
    let wasHealthy := b.healthy
    ({ b with healthy := false },
      "Health check connection failed" ::
        (if wasHealthy then ["Backend became unhealthy due to connection error"]
         else []))
  | .response s =>
    let isHealthy := decide (s = 200)
    let wasHealthy := b.healthy
    ({ b with healthy := isHealthy },
      if wasHealthy ≠ isHealthy then
        [if isHealthy then "Backend became healthy" else "Backend became unhealthy"]
      else [])

example :
    NextBackend [⟨"b1", true⟩, ⟨"b2", false⟩, ⟨"b3", true⟩] 1 =
      (Except.ok ⟨"b3", true⟩, 0) := rfl

example :
    NextBackend [⟨"b1", false⟩, ⟨"b2", false⟩] 1 =
      (Except.error "no healthy backends available", 1) := rfl

example :
    roundRobinSpec [⟨"b1", false⟩, ⟨"b2", false⟩] 1 =
      (Except.error "no healthy backends available", 1) := rfl

example :
    (runCalls [⟨"b1", true⟩, ⟨"b2", true⟩, ⟨"b3", true⟩] 0 4).1 =
      [Except.ok ⟨"b1", true⟩, Except.ok ⟨"b2", true⟩,
       Except.ok ⟨"b3", true⟩, Except.ok ⟨"b1", true⟩] := rfl

/-! ## Lemmas about the round-robin scan -/

lemma getB_get? (bs : List Backend) (i : Nat) (h : i < bs.length) :
    bs.get? i = some (getB bs i) := by
  unfold getB
  cases hg : bs.get? i with
  | none =>
    have := List.get?_eq_none.mp hg
    omega
  | some b => rfl

lemma getB_mem (bs : List Backend) (i : Nat) (h : i < bs.length) :
    getB bs i ∈ bs := by
  have hg := getB_get? bs i h
  exact List.get?_mem hg

lemma firstHealthyOff_mod (bs : List Backend) :
    ∀ (fuel c : Nat),
      firstHealthyOff bs c fuel = firstHealthyOff bs (c % bs.length) fuel := by
  intro fuel
  induction fuel with
  | zero => intro c; rfl
  | succ f ih =>
    intro c
    show firstHealthyOff bs c (f + 1) = firstHealthyOff bs (c % bs.length) (f + 1)
    unfold firstHealthyOff
    rw [Nat.mod_mod_of_dvd c (dvd_refl bs.length)]
    rw [ih (c + 1), ih (c % bs.length + 1), Nat.mod_add_mod]

lemma rrLoop_succ (bs : List Backend) (start f cur : Nat)
    (hcur : cur < bs.length) :
    rrLoop bs start (f + 1) cur =
      (if (getB bs cur).healthy then
        (Except.ok (getB bs cur), (cur + 1) % bs.length)
      else if (cur + 1) % bs.length = start then
        (Except.error "no healthy backends available", (cur + 1) % bs.length)
      else rrLoop bs start f ((cur + 1) % bs.length)) := by
  conv_lhs => rw [rrLoop]
  rw [getB_get? bs cur hcur]

lemma firstHealthyOff_succ (bs : List Backend) (c fuel : Nat) :
    firstHealthyOff bs c (fuel + 1) =
      if (getB bs (c % bs.length)).healthy then some 0
      else (firstHealthyOff bs (c + 1) fuel).map (· + 1) := rfl

lemma rrLoop_eq (bs : List Backend) (start : Nat) (hn : 0 < bs.length) :
    ∀ (m cur fuel : Nat), cur < bs.length → m + 1 ≤ fuel →
      (cur + (m + 1)) % bs.length = start →
      (∀ k, k < m → (cur + (k + 1)) % bs.length ≠ start) →
      rrLoop bs start fuel cur =
        match firstHealthyOff bs cur (m + 1) with
        | some k =>
          (Except.ok (getB bs ((cur + k) % bs.length)),
            (cur + k + 1) % bs.length)
        | none => (Except.error "no healthy backends available", start) := by
  intro m
  induction m with
  | zero =>
    intro cur fuel hcur hfuel hwrap _
    obtain ⟨f, rfl⟩ : ∃ f, fuel = f + 1 := ⟨fuel - 1, by omega⟩
    rw [rrLoop_succ bs start f cur hcur, firstHealthyOff_succ,
      Nat.mod_eq_of_lt hcur]
    by_cases hh : (getB bs cur).healthy = true
    · rw [if_pos hh, if_pos hh]
      simp [Nat.mod_eq_of_lt hcur]
    · rw [if_neg hh, if_neg hh]
      have hs : (cur + 1) % bs.length = start := by simpa using hwrap
      rw [if_pos hs, hs]
      rfl
  | succ m ih =>
    intro cur fuel hcur hfuel hwrap hne
    obtain ⟨f, rfl⟩ : ∃ f, fuel = f + 1 := ⟨fuel - 1, by omega⟩
    rw [rrLoop_succ bs start f cur hcur, firstHealthyOff_succ,
      Nat.mod_eq_of_lt hcur]
    by_cases hh : (getB bs cur).healthy = true
    · rw [if_pos hh, if_pos hh]
      simp [Nat.mod_eq_of_lt hcur]
    · rw [if_neg hh, if_neg hh]
      have hs : (cur + 1) % bs.length ≠ start := by
        have h0 := hne 0 (by omega)
        simpa using h0
      rw [if_neg hs]
      have hcur' : (cur + 1) % bs.length < bs.length := Nat.mod_lt _ hn
      have hwrap' : ((cur + 1) % bs.length + (m + 1)) % bs.length = start := by
        rw [Nat.mod_add_mod]
        have h : cur + 1 + (m + 1) = cur + (m + 1 + 1) := by omega
        rw [h]
        exact hwrap
      have hne' : ∀ k, k < m →
          ((cur + 1) % bs.length + (k + 1)) % bs.length ≠ start := by
        intro k hk
        rw [Nat.mod_add_mod]
        have h : cur + 1 + (k + 1) = cur + (k + 1 + 1) := by omega
        rw [h]
        exact hne (k + 1) (by omega)
      rw [ih ((cur + 1) % bs.length) f hcur' (by omega) hwrap' hne']
      rw [show firstHealthyOff bs (cur + 1) (m + 1) =
            firstHealthyOff bs ((cur + 1) % bs.length) (m + 1) from
          firstHealthyOff_mod bs (m + 1) (cur + 1)]
      cases hfo : firstHealthyOff bs ((cur + 1) % bs.length) (m + 1) with
      | none => rfl
      | some k =>
        have h1 : ((cur + 1) % bs.length + k) % bs.length =
            (cur + (k + 1)) % bs.length := by
          rw [Nat.mod_add_mod]
          congr 1
          omega
        have h2 : ((cur + 1) % bs.length + k + 1) % bs.length =
            (cur + (k + 1) + 1) % bs.length := by
          rw [Nat.add_assoc, Nat.mod_add_mod]
          congr 1
          omega
        simp only [Option.map_some']
        rw [h1, h2]

lemma NextBackend_eq_spec (bs : List Backend) (c : Nat)
    (h : c < bs.length ∨ bs = []) :
    NextBackend bs c = roundRobinSpec bs c := by
  rcases h with hc | rfl
  · have hn : 0 < bs.length := by omega
    unfold NextBackend roundRobinSpec
    rw [if_neg (by omega), if_neg (by omega)]
    obtain ⟨m, hm⟩ : ∃ m, bs.length = m + 1 := ⟨bs.length - 1, by omega⟩
    have hwrap : (c + (m + 1)) % bs.length = c := by
      rw [← hm, Nat.add_mod_right, Nat.mod_eq_of_lt hc]
    have hne : ∀ k, k < m → (c + (k + 1)) % bs.length ≠ c := by
      intro k hk he
      have hmod : (c + (k + 1)) % bs.length = c % bs.length := by
        rw [he, Nat.mod_eq_of_lt hc]
      have hdvd :=
        (Nat.modEq_iff_dvd' (Nat.le_add_right c (k + 1))).mp
          (Nat.ModEq.symm hmod)
      have hk1 : c + (k + 1) - c = k + 1 := by omega
      rw [hk1] at hdvd
      have := Nat.le_of_dvd (by omega) hdvd
      omega
    have heq := rrLoop_eq bs c hn m c bs.length hc (by omega) hwrap hne
    rw [heq, hm]
  · rfl

lemma rrLoop_ok (bs : List Backend) (start : Nat) :
    ∀ (fuel cur : Nat) (b : Backend) (c' : Nat),
      rrLoop bs start fuel cur = (Except.ok b, c') →
      b.healthy = true ∧ b ∈ bs := by
  intro fuel
  induction fuel with
  | zero =>
    intro cur b c' h
    simp [rrLoop] at h
  | succ f ih =>
    intro cur b c' h
    rw [rrLoop] at h
    cases hg : bs.get? cur with
    | none => rw [hg] at h; simp at h
    | some b0 =>
      rw [hg] at h
      simp only at h
      by_cases hh : b0.healthy = true
      · rw [if_pos hh] at h
        have hb : b0 = b := by
          have := congrArg Prod.fst h
          simpa using this
        subst hb
        exact ⟨hh, List.get?_mem hg⟩
      · rw [if_neg hh] at h
        by_cases hs : (cur + 1) % bs.length = start
        · rw [if_pos hs] at h
          simp at h
        · rw [if_neg hs] at h
          exact ih _ _ _ h

lemma nextBackend_all_healthy (bs : List Backend)
    (hall : ∀ b ∈ bs, b.healthy = true) (c : Nat) (hc : c < bs.length) :
    NextBackend bs c = (Except.ok (getB bs c), (c + 1) % bs.length) := by
  have hn : 0 < bs.length := by omega
  unfold NextBackend
  rw [if_neg (by omega)]
  obtain ⟨f, hf⟩ : ∃ f, bs.length = f + 1 := ⟨bs.length - 1, by omega⟩
  have hstep : rrLoop bs c bs.length c = rrLoop bs c (f + 1) c := by rw [hf]
  rw [hstep, rrLoop_succ bs c f c hc,
    if_pos (hall (getB bs c) (getB_mem bs c hc))]

lemma runCalls_all_healthy (bs : List Backend)
    (hall : ∀ b ∈ bs, b.healthy = true) (hK : 0 < bs.length) :
    ∀ (N c : Nat), c < bs.length →
      (runCalls bs c N).1 =
        (List.range N).map
          (fun i => Except.ok (getB bs ((c + i) % bs.length))) := by
  intro N
  induction N with
  | zero => intro c _; simp [runCalls]
  | succ n ih =>
    intro c hc
    show (NextBackend bs c).1 ::
        (runCalls bs (NextBackend bs c).2 n).1 = _
    rw [nextBackend_all_healthy bs hall c hc]
    simp only
    rw [ih ((c + 1) % bs.length) (Nat.mod_lt _ hK)]
    rw [List.range_succ_eq_map, List.map_cons, List.map_map]
    congr 1
    · rw [Nat.add_zero, Nat.mod_eq_of_lt hc]
    · apply List.map_congr_left
      intro i _
      simp only [Function.comp]
      rw [Nat.mod_add_mod]
      have hce : c + 1 + i = c + (i + 1) := by omega
      rw [hce]

lemma countP_range_mod (K j : Nat) (hK : 0 < K) (hj : j < K) :
    ∀ N : Nat,
      (List.range N).countP (fun i => decide (i % K = j)) =
        N / K + (if j < N % K then 1 else 0) := by
  intro N
  induction N with
  | zero => simp [Nat.zero_div, Nat.zero_mod]
  | succ n ih =>
    rw [List.range_succ, List.countP_append, ih]
    have hstep : List.countP (fun i => decide (i % K = j)) [n] =
        if n % K = j then 1 else 0 := by
      by_cases h : n % K = j <;> simp [List.countP_cons, h]
    rw [hstep]
    have hdm := Nat.div_add_mod n K
    have hmlt : n % K < K := Nat.mod_lt _ hK
    rcases Nat.lt_or_ge (n % K + 1) K with hlt | hge
    · have hmod : (n + 1) % K = n % K + 1 := by
        have h1 : n + 1 = K * (n / K) + (n % K + 1) := by omega
        rw [h1, Nat.mul_add_mod, Nat.mod_eq_of_lt hlt]
      have hdiv : (n + 1) / K = n / K := by
        have h1 : n + 1 = K * (n / K) + (n % K + 1) := by omega
        rw [h1, Nat.mul_add_div hK, Nat.div_eq_of_lt hlt, Nat.add_zero]
      rw [hmod, hdiv]
      split_ifs <;> omega
    · have hmK : n % K + 1 = K := by omega
      have h1 : n + 1 = K * (n / K) + K := by omega
      have hmod : (n + 1) % K = 0 := by
        rw [h1, Nat.mul_add_mod, Nat.mod_self]
      have hdiv : (n + 1) / K = n / K + 1 := by
        rw [h1, Nat.mul_add_div hK, Nat.div_self hK]
      rw [hmod, hdiv]
      split_ifs <;> omega

lemma ceilDiv_of_mod_ne (K N : Nat) (hK : 0 < K) (h : N % K ≠ 0) :
    (N + K - 1) / K = N / K + 1 := by
  have h1 : N % K < K := Nat.mod_lt _ hK
  have hdm := Nat.div_add_mod N K
  have h2 : N + K - 1 = K * (N / K + 1) + (N % K - 1) := by
    rw [Nat.mul_succ]
    omega
  have h3 : N % K - 1 < K := by omega
  rw [h2, Nat.mul_add_div hK, Nat.div_eq_of_lt h3]

lemma getB_inj_of_nodup_ids (bs : List Backend)
    (hids : (bs.map Backend.id).Nodup) :
    ∀ i, i < bs.length → ∀ i', i' < bs.length →
      getB bs i = getB bs i' → i = i' := by
  intro i hi i' hi' he
  have hgi : getB bs i = bs.get ⟨i, hi⟩ := by
    unfold getB
    rw [List.get?_eq_get hi]
    rfl
  have hgi' : getB bs i' = bs.get ⟨i', hi'⟩ := by
    unfold getB
    rw [List.get?_eq_get hi']
    rfl
  have hlen : (bs.map Backend.id).length = bs.length := List.length_map _ _
  have hmap : (bs.map Backend.id).get ⟨i, by omega⟩ =
      (bs.map Backend.id).get ⟨i', by omega⟩ := by
    rw [List.get_map, List.get_map]
    show (bs.get _).id = (bs.get _).id
    rw [← hgi, ← hgi', he]
  have := List.nodup_iff_injective_get.mp hids hmap
  exact congrArg Fin.val this

lemma add_mod_ne_self (L c : Nat) (hc : c < L) (k : Nat) (hk1 : 1 ≤ k)
    (hk2 : k < L) : (c + k) % L ≠ c := by
  intro he
  have hmod : (c + k) % L = c % L := by rw [he, Nat.mod_eq_of_lt hc]
  have hdvd := (Nat.modEq_iff_dvd' (Nat.le_add_right c k)).mp
    (Nat.ModEq.symm hmod)
  have hck : c + k - c = k := by omega
  rw [hck] at hdvd
  have := Nat.le_of_dvd (by omega) hdvd
  omega

/-! ## Claim theorems -/

/-- C1: every `NextBackend` call that returns a backend returns one whose
healthy flag was observed `true` (and which belongs to the pool); when
no backend in the pool is healthy the call returns an error instead of
a backend; and `GetNextBackend` propagates the strategy's result
unchanged. -/
theorem getNextBackend_only_healthy (bs : List Backend) (c : Nat) :
    (∀ b c', NextBackend bs c = (Except.ok b, c') →
      b.healthy = true ∧ b ∈ bs) ∧
    ((∀ b ∈ bs, b.healthy = false) →
      ∃ e c', NextBackend bs c = (Except.error e, c')) ∧
    GetNextBackend bs c = NextBackend bs c := by
  have hok : ∀ b c', NextBackend bs c = (Except.ok b, c') →
      b.healthy = true ∧ b ∈ bs := by
    intro b c' h
    unfold NextBackend at h
    by_cases hz : bs.length = 0
    · rw [if_pos hz] at h
      simp at h
    · rw [if_neg hz] at h
      exact rrLoop_ok bs c _ _ b c' h
  refine ⟨hok, ?_, ?_⟩
  · intro hall
    rcases hnb : NextBackend bs c with ⟨r, c'⟩
    cases r with
    | error e => exact ⟨e, c', rfl⟩
    | ok b =>
      have hb := hok b c' hnb
      have := hall b hb.2
      rw [hb.1] at this
      exact absurd this (by simp)
  · unfold GetNextBackend
    rcases NextBackend bs c with ⟨r, c'⟩
    cases r <;> rfl

/-- Witness for C1 at a concrete one-element pool: the returned backend
is healthy and in the pool, and an all-unhealthy pool yields an
error. -/
theorem getNextBackend_only_healthy_witness :
    ((⟨"b1", true⟩ : Backend).healthy = true ∧
      (⟨"b1", true⟩ : Backend) ∈ ([⟨"b1", true⟩] : List Backend)) ∧
    (∃ e c', NextBackend [(⟨"b2", false⟩ : Backend)] 0 =
      (Except.error e, c')) :=
  ⟨(getNextBackend_only_healthy [⟨"b1", true⟩] 0).1 ⟨"b1", true⟩ 0 rfl,
    (getNextBackend_only_healthy [⟨"b2", false⟩] 0).2.1 (by decide)⟩

/-- C2: `RoundRobinStrategy.NextBackend` implements exactly the
specified algorithm — `"no backends available"` on the empty pool, and
otherwise a cyclic scan from the cursor that returns the first healthy
backend with the cursor advanced one past it, or
`"no healthy backends available"` once the cursor has wrapped back to
its recorded start. -/
theorem nextBackend_implements_roundRobinSpec (bs : List Backend) (c : Nat)
    (h : c < bs.length ∨ bs = []) :
    NextBackend bs c = roundRobinSpec bs c :=
  NextBackend_eq_spec bs c h

/-- Witness for C2 at a concrete pool whose first backend is
unhealthy. -/
theorem nextBackend_implements_roundRobinSpec_witness :
    NextBackend [(⟨"b1", false⟩ : Backend), ⟨"b2", true⟩] 0 =
      roundRobinSpec [(⟨"b1", false⟩ : Backend), ⟨"b2", true⟩] 0 :=
  nextBackend_implements_roundRobinSpec _ 0 (Or.inl (by decide))

/-- C8: on a fixed non-empty pool with the cursor in range,
`NextBackend` terminates with either a backend or the
no-healthy-backends error, leaves the cursor in `[0, len(pool))`, and
its scan loop inspects at most `len(pool)` slots — giving the loop any
fuel beyond `len(pool)` changes nothing. -/
theorem nextBackend_terminates_in_range (bs : List Backend) (c : Nat)
    (hne : bs ≠ []) (hc : c < bs.length) :
    ((∃ b, (NextBackend bs c).1 = Except.ok b) ∨
      (NextBackend bs c).1 = Except.error "no healthy backends available") ∧
    (NextBackend bs c).2 < bs.length ∧
    (∀ fuel, bs.length ≤ fuel →
      rrLoop bs c fuel c = rrLoop bs c bs.length c) := by
  have hn : 0 < bs.length := List.length_pos.mpr hne
  have hspec := NextBackend_eq_spec bs c (Or.inl hc)
  obtain ⟨m, hm⟩ : ∃ m, bs.length = m + 1 := ⟨bs.length - 1, by omega⟩
  have hwrap : (c + (m + 1)) % bs.length = c := by
    rw [← hm, Nat.add_mod_right, Nat.mod_eq_of_lt hc]
  have hnk : ∀ k, k < m → (c + (k + 1)) % bs.length ≠ c := by
    intro k hk
    exact add_mod_ne_self bs.length c hc (k + 1) (by omega) (by omega)
  refine ⟨?_, ?_, ?_⟩
  · rw [hspec]
    unfold roundRobinSpec
    rw [if_neg (by omega)]
    cases hfo : firstHealthyOff bs c bs.length with
    | some k => exact Or.inl ⟨_, rfl⟩
    | none => exact Or.inr rfl
  · rw [hspec]
    unfold roundRobinSpec
    rw [if_neg (by omega)]
    cases hfo : firstHealthyOff bs c bs.length with
    | some k => exact Nat.mod_lt _ hn
    | none => exact hc
  · intro fuel hfuel
    rw [rrLoop_eq bs c hn m c fuel hc (by omega) hwrap hnk,
      rrLoop_eq bs c hn m c bs.length hc (by omega) hwrap hnk]

/-- Witness for C8 at a concrete two-element pool. -/
theorem nextBackend_terminates_in_range_witness :
    (NextBackend [(⟨"b1", false⟩ : Backend), ⟨"b2", true⟩] 0).2 < 2 :=
  (nextBackend_terminates_in_range [⟨"b1", false⟩, ⟨"b2", true⟩] 0
    (by decide) (by decide)).2.1

/-- C3: over `N ≥ 1` sequential calls on a fresh Round-Robin strategy
against a pool of `K ≥ 1` all-healthy backends with distinct ids, the
result sequence is the pool order repeated cyclically (from shift 0),
and each backend is chosen `⌊N/K⌋` or `⌈N/K⌉` times. -/
theorem roundRobin_cyclic_and_fair (bs : List Backend) (N : Nat)
    (hN : 1 ≤ N) (hK : 1 ≤ bs.length)
    (hall : ∀ b ∈ bs, b.healthy = true)
    (hids : (bs.map Backend.id).Nodup) :
    (runCalls bs 0 N).1 =
      (List.range N).map (fun i => Except.ok (getB bs (i % bs.length))) ∧
    ∀ j, j < bs.length →
      ((runCalls bs 0 N).1.countP
          (fun r => decide (r = Except.ok (getB bs j))) = N / bs.length ∨
        (runCalls bs 0 N).1.countP
          (fun r => decide (r = Except.ok (getB bs j))) =
          (N + bs.length - 1) / bs.length) := by
  have hK0 : 0 < bs.length := hK
  have hrun := runCalls_all_healthy bs hall hK0 N 0 hK0
  have hzero : (List.range N).map
      (fun i => Except.ok (getB bs ((0 + i) % bs.length))) =
      (List.range N).map
        (fun i =>
          (Except.ok (getB bs (i % bs.length)) : Except String Backend)) := by
    apply List.map_congr_left
    intro i _
    rw [Nat.zero_add]
  constructor
  · rw [hrun]
    exact hzero
  · intro j hj
    rw [hrun, List.countP_map]
    have hpred : ∀ i ∈ List.range N,
        (((fun (r : Except String Backend) =>
            decide (r = Except.ok (getB bs j))) ∘
          (fun i => Except.ok (getB bs ((0 + i) % bs.length)))) i = true ↔
        (fun i => decide (i % bs.length = j)) i = true) := by
      intro i _
      simp only [Function.comp, Nat.zero_add]
      by_cases h : i % bs.length = j
      · simp [h]
      · have hne1 : getB bs (i % bs.length) ≠ getB bs j := by
          intro he
          exact h (getB_inj_of_nodup_ids bs hids _ (Nat.mod_lt _ hK0) _ hj he)
        simp [h, hne1]
    rw [List.countP_congr hpred]
    rw [countP_range_mod bs.length j hK0 hj N]
    by_cases hcase : j < N % bs.length
    · refine Or.inr ?_
      rw [if_pos hcase]
      rw [ceilDiv_of_mod_ne bs.length N hK0 (by omega)]
    · refine Or.inl ?_
      rw [if_neg hcase]
      omega

/-- Witness for C3 at a concrete two-element all-healthy pool and three
calls. -/
theorem roundRobin_cyclic_and_fair_witness :
    (runCalls [(⟨"b1", true⟩ : Backend), ⟨"b2", true⟩] 0 3).1 =
      (List.range 3).map
        (fun i =>
          Except.ok (getB [(⟨"b1", true⟩ : Backend), ⟨"b2", true⟩]
            (i % 2))) :=
  (roundRobin_cyclic_and_fair [⟨"b1", true⟩, ⟨"b2", true⟩] 3 (by decide)
    (by decide) (by decide) (by decide)).1

lemma goSplitOn_ne_nil (sep : Char) : ∀ s : List Char, goSplitOn sep s ≠ [] := by
  intro s
  cases s with
  | nil => simp [goSplitOn]
  | cons c cs =>
    unfold goSplitOn
    by_cases h : c = sep
    · simp [h]
    · rw [if_neg h]
      cases hg : goSplitOn sep cs <;> simp

lemma goSplitOn_headD (sep : Char) :
    ∀ s : List Char,
      (goSplitOn sep s).headD [] = s.takeWhile (fun c => c ≠ sep) := by
  intro s
  induction s with
  | nil => rfl
  | cons c cs ih =>
    unfold goSplitOn
    by_cases h : c = sep
    · rw [if_pos h]
      simp [List.takeWhile_cons, h]
    · rw [if_neg h]
      cases hg : goSplitOn sep cs with
      | nil => exact absurd hg (goSplitOn_ne_nil sep cs)
      | cons t ts =>
        rw [hg] at ih
        simp only [List.headD_cons] at ih ⊢
        simp [List.takeWhile_cons, h]
        simpa [decide_not] using ih

/-- C7: the rate-limit client identifier computed by the middleware's
`getClientID` agrees with the spec's rule — `"api:"` plus the
`X-API-Key` value when non-empty, else the first comma-separated token
of `X-Forwarded-For` trimmed, else the remote address up to the first
`':'`. -/
theorem getClientID_eq_spec (apiKey forwardedFor remoteAddr : List Char) :
    getClientID apiKey forwardedFor remoteAddr =
      specClientID apiKey forwardedFor remoteAddr := by
  unfold getClientID specClientID
  rw [goSplitOn_headD, goSplitOn_headD]

/-- C6: one health probe updates the backend's healthy flag exactly as
specified — a request-construction error leaves the whole backend
unchanged, a transport error forces the flag to `false`, and a
response sets the flag to `true` exactly when the status code is 200;
the backend's identity is never altered. -/
theorem checkBackendHealth_outcome_mapping (b : Backend) :
    (checkBackendHealth b ProbeOutcome.buildError).1 = b ∧
    ((checkBackendHealth b ProbeOutcome.transportError).1).healthy = false ∧
    ((checkBackendHealth b ProbeOutcome.transportError).1).id = b.id ∧
    (∀ s : Int,
      (((checkBackendHealth b (ProbeOutcome.response s)).1).healthy = true ↔
        s = 200) ∧
      ((checkBackendHealth b (ProbeOutcome.response s)).1).id = b.id) := by
  refine ⟨rfl, rfl, rfl, ?_⟩
  intro s
  refine ⟨?_, rfl⟩
  show (decide (s = 200) = true ↔ s = 200)
  exact decide_eq_true_iff

/-- C5: `SetClientLimits(id, r, b)` immediately followed by
`GetClientLimits(id)` returns exactly `{r, b}`, and
`DeleteClientLimits(id)` immediately followed by `GetClientLimits(id)`
returns exactly the defaults, whatever was stored before. -/
theorem setGetDeleteClientLimits (st : TBState) (id : List Char)
    (r : ℚ) (b : ℤ) :
    GetClientLimits (SetClientLimits st id r b) id = ⟨r, b⟩ ∧
    GetClientLimits (DeleteClientLimits st id) id =
      ⟨st.defaultRate, st.defaultBurst⟩ := by
  constructor <;>
    simp [GetClientLimits, SetClientLimits, DeleteClientLimits, updKey]

lemma updKey_idem {α : Type} (f : List Char → Option α) (id : List Char)
    (v : Option α) : updKey (updKey f id v) id v = updKey f id v := by
  funext k
  unfold updKey
  by_cases hk : k = id <;> simp [hk]

lemma updKey_self {α : Type} (f : List Char → Option α) (id : List Char)
    (h : f id = none) : updKey f id none = f := by
  funext k
  unfold updKey
  by_cases hk : k = id
  · rw [if_pos hk, hk, h]
  · rw [if_neg hk]

/-- C10: `DeleteClientLimits` is total and idempotent — deleting an id
with no stored entry and no bucket leaves the limiter state unchanged,
deleting twice equals deleting once, and the DELETE branch of the
admin handler answers 204 for every well-formed path, stored or
not. -/
theorem deleteClientLimits_total_idempotent (st : TBState) (id : List Char) :
    (st.clientLimits id = none → st.limiters id = none →
      DeleteClientLimits st id = st) ∧
    DeleteClientLimits (DeleteClientLimits st id) id =
      DeleteClientLimits st id ∧
    (∀ (path : List Char) (body : Option RLBody),
      4 ≤ (goSplitOn '/' path).length →
      (handleRateLimit st Method.delete path body).status = 204) := by
  refine ⟨?_, ?_, ?_⟩
  · intro h1 h2
    unfold DeleteClientLimits
    rw [updKey_self st.clientLimits id h1, updKey_self st.limiters id h2]
  · unfold DeleteClientLimits
    rw [updKey_idem, updKey_idem]
  · intro path body h4
    unfold handleRateLimit
    rw [if_neg (by omega)]

/-- Witness for C10: deleting a never-stored client id from a fresh
limiter leaves it unchanged, and a DELETE on a well-formed admin path
answers 204. -/
theorem deleteClientLimits_total_idempotent_witness :
    (DeleteClientLimits
        ⟨100, 50, fun _ => none, fun _ => none⟩ "alice".data =
      ⟨100, 50, fun _ => none, fun _ => none⟩) ∧
    (handleRateLimit ⟨100, 50, fun _ => none, fun _ => none⟩ Method.delete
        "/admin/ratelimit/alice".data none).status = 204 :=
  ⟨(deleteClientLimits_total_idempotent
      ⟨100, 50, fun _ => none, fun _ => none⟩ "alice".data).1 rfl rfl,
    (deleteClientLimits_total_idempotent
      ⟨100, 50, fun _ => none, fun _ => none⟩ "alice".data).2.2
      "/admin/ratelimit/alice".data none (by decide)⟩

lemma handleRateLimit_msg_cases (st : TBState) (m : Method)
    (path : List Char) (body : Option RLBody)
    (hge : 4 ≤ (goSplitOn '/' path).length) :
    (handleRateLimit st m path body).msg = "" ∨
    (handleRateLimit st m path body).msg = "Invalid request body" ∨
    (handleRateLimit st m path body).msg = "Rate and burst must be positive" ∨
    (handleRateLimit st m path body).msg = "Method not allowed" := by
  unfold handleRateLimit
  rw [if_neg (by omega)]
  cases m with
  | get => exact Or.inl rfl
  | post =>
    cases body with
    | none => exact Or.inr (Or.inl rfl)
    | some l =>
      by_cases hv : l.rate ≤ 0 ∨ l.burst ≤ 0
      · refine Or.inr (Or.inr (Or.inl ?_))
        show (if l.rate ≤ 0 ∨ l.burst ≤ 0 then
            (⟨400, "Rate and burst must be positive", st⟩ : HandlerResult)
          else ⟨201, "",
            SetClientLimits st ((goSplitOn '/' path).getD 3 [])
              l.rate l.burst⟩).msg = "Rate and burst must be positive"
        rw [if_pos hv]
      · refine Or.inl ?_
        show (if l.rate ≤ 0 ∨ l.burst ≤ 0 then
            (⟨400, "Rate and burst must be positive", st⟩ : HandlerResult)
          else ⟨201, "",
            SetClientLimits st ((goSplitOn '/' path).getD 3 [])
              l.rate l.burst⟩).msg = ""
        rw [if_neg hv]
  | put =>
    cases body with
    | none => exact Or.inr (Or.inl rfl)
    | some l =>
      by_cases hv : l.rate ≤ 0 ∨ l.burst ≤ 0
      · refine Or.inr (Or.inr (Or.inl ?_))
        show (if l.rate ≤ 0 ∨ l.burst ≤ 0 then
            (⟨400, "Rate and burst must be positive", st⟩ : HandlerResult)
          else ⟨200, "",
            UpdateClientLimits st ((goSplitOn '/' path).getD 3 [])
              (fun ul => { ul with rate := l.rate, burst := l.burst })⟩).msg =
          "Rate and burst must be positive"
        rw [if_pos hv]
      · refine Or.inl ?_
        show (if l.rate ≤ 0 ∨ l.burst ≤ 0 then
            (⟨400, "Rate and burst must be positive", st⟩ : HandlerResult)
          else ⟨200, "",
            UpdateClientLimits st ((goSplitOn '/' path).getD 3 [])
              (fun ul => { ul with rate := l.rate, burst := l.burst })⟩).msg =
          ""
        rw [if_neg hv]
  | delete => exact Or.inl rfl
  | other => exact Or.inr (Or.inr (Or.inr rfl))

/-- C9: the admin rate-limit handler takes the client id verbatim as
the fourth `'/'`-separated path segment with no validation — the bare
path `/admin/ratelimit/` is not rejected but operates on the
empty-string client id (a POST with a valid body stores limits under
the key `""`), segments after the client id are ignored, and only
paths with fewer than four segments get the 400 Invalid-URL-format
response. -/
theorem handleRateLimit_clientID_verbatim (st : TBState) :
    (∀ (r : ℚ) (b : ℤ), 0 < r → 0 < b →
      handleRateLimit st Method.post ("/admin/ratelimit/".data)
          (some ⟨r, b⟩) =
        ⟨201, "", SetClientLimits st [] r b⟩) ∧
    (∀ (m : Method) (body : Option RLBody),
      handleRateLimit st m ("/admin/ratelimit/a/b".data) body =
        handleRateLimit st m ("/admin/ratelimit/a".data) body) ∧
    (∀ (m : Method) (path : List Char) (body : Option RLBody),
      (goSplitOn '/' path).length < 4 →
      handleRateLimit st m path body =
        ⟨400, "Invalid URL format. Use /admin/ratelimit/{clientID}", st⟩) ∧
    (∀ (m : Method) (path : List Char) (body : Option RLBody),
      (handleRateLimit st m path body).msg =
        "Invalid URL format. Use /admin/ratelimit/{clientID}" →
      (goSplitOn '/' path).length < 4) := by
  refine ⟨?_, ?_, ?_, ?_⟩
  · intro r b hr hb
    have hred : handleRateLimit st Method.post ("/admin/ratelimit/".data)
        (some ⟨r, b⟩) =
        (if r ≤ 0 ∨ b ≤ 0 then
          ⟨400, "Rate and burst must be positive", st⟩
        else ⟨201, "", SetClientLimits st [] r b⟩) := rfl
    rw [hred, if_neg (by push_neg; exact ⟨hr, hb⟩)]
  · intro m body
    cases m <;> cases body <;> rfl
  · intro m path body h
    unfold handleRateLimit
    rw [if_pos h]
  · intro m path body hmsg
    by_contra hge
    push_neg at hge
    rcases handleRateLimit_msg_cases st m path body hge with h | h | h | h <;>
      rw [hmsg] at h <;> exact absurd h (by decide)

/-- Witness for C9: a POST to the bare path with a valid body stores
limits under the empty client id and answers 201. -/
theorem handleRateLimit_clientID_verbatim_witness :
    handleRateLimit ⟨100, 50, fun _ => none, fun _ => none⟩ Method.post
        ("/admin/ratelimit/".data) (some ⟨1, 2⟩) =
      ⟨201, "",
        SetClientLimits ⟨100, 50, fun _ => none, fun _ => none⟩ [] 1 2⟩ :=
  (handleRateLimit_clientID_verbatim
      ⟨100, 50, fun _ => none, fun _ => none⟩).1 1 2 (by norm_num)
    (by norm_num)

lemma allowRun_steady (t : ℚ) :
    ∀ (k : Nat) (b : Bucket), b.last = t → b.tokens ≤ b.burst →
      (k : ℚ) ≤ b.tokens →
      allowRun b t k =
        (List.replicate k true, { b with tokens := b.tokens - k }) := by
  intro k
  induction k with
  | zero =>
    intro b h1 h2 h3
    simp [allowRun]
  | succ n ih =>
    intro b h1 h2 h3
    have hadv : b.advance t = b := by
      unfold Bucket.advance
      rw [h1, sub_self, zero_mul, add_zero, min_eq_right h2, ← h1]
    have h1le : (1 : ℚ) ≤ b.tokens := by
      push_cast at h3
      linarith
    have hallow : b.allow t = (true, { b with tokens := b.tokens - 1 }) := by
      unfold Bucket.allow
      rw [hadv, if_pos h1le]
    show ((b.allow t).1 :: (allowRun (b.allow t).2 t n).1,
        (allowRun (b.allow t).2 t n).2) = _
    rw [hallow]
    have hlast : ({ b with tokens := b.tokens - 1 } : Bucket).last = t := h1
    have hle : ({ b with tokens := b.tokens - 1 } : Bucket).tokens ≤
        ({ b with tokens := b.tokens - 1 } : Bucket).burst := by
      show b.tokens - 1 ≤ b.burst
      linarith
    have htok : (n : ℚ) ≤ ({ b with tokens := b.tokens - 1 } : Bucket).tokens := by
      show (n : ℚ) ≤ b.tokens - 1
      push_cast at h3
      linarith
    rw [ih { b with tokens := b.tokens - 1 } hlast hle htok]
    simp only [List.replicate_succ]
    have hq : b.tokens - 1 - (n : ℚ) = b.tokens - ((n + 1 : ℕ) : ℚ) := by
      push_cast
      ring
    rw [hq]

lemma TBAllow_getLimiter (st : TBState) (id : List Char) (t : ℚ)
    (l : Bucket) (st' : TBState) (hga : getLimiter st id = (l, st')) :
    (TBAllow st id t).1 = (l.allow t).1 ∧
    (TBAllow st id t).2.limiters id = some (l.allow t).2 := by
  unfold TBAllow
  rw [hga]
  refine ⟨rfl, ?_⟩
  show updKey st'.limiters id (some (l.allow t).2) id = some (l.allow t).2
  unfold updKey
  rw [if_pos rfl]

lemma tbAllowRun_some (id : List Char) (t : ℚ) :
    ∀ (k : Nat) (st : TBState) (l : Bucket), st.limiters id = some l →
      (tbAllowRun st id t k).1 = (allowRun l t k).1 ∧
      (tbAllowRun st id t k).2.limiters id = some (allowRun l t k).2 := by
  intro k
  induction k with
  | zero =>
    intro st l h
    exact ⟨rfl, h⟩
  | succ n ih =>
    intro st l h
    have hga : getLimiter st id = (l, st) := by
      unfold getLimiter
      rw [h]
    have hTB : TBAllow st id t =
        ((l.allow t).1,
          { st with limiters := updKey st.limiters id (some (l.allow t).2) }) := by
      unfold TBAllow
      rw [hga]
    have hlim1 :
        ({ st with
            limiters := updKey st.limiters id (some (l.allow t).2) } :
          TBState).limiters id = some (l.allow t).2 := by
      show updKey st.limiters id (some (l.allow t).2) id = _
      unfold updKey
      rw [if_pos rfl]
    obtain ⟨ih1, ih2⟩ := ih _ _ hlim1
    constructor
    · show (TBAllow st id t).1 ::
          (tbAllowRun (TBAllow st id t).2 id t n).1 =
        (l.allow t).1 :: (allowRun (l.allow t).2 t n).1
      rw [hTB]
      exact congrArg _ ih1
    · show (tbAllowRun (TBAllow st id t).2 id t n).2.limiters id =
        some (allowRun (l.allow t).2 t n).2
      rw [hTB]
      exact ih2

/-- C4: for a client whose bucket starts fresh with rate `R` and burst
`B` — whether the limiter is about to be seeded on first use from
limits `{R, B}` (stored or defaults), or was just installed by
`SetClientLimits` as `newLimiter R B` — the first `B` calls to `Allow`
in rapid succession (same instant `t₀`) all return `true`, the
`(B+1)`-th returns `false`, and one further call `1/R` seconds later
returns `true`; each granted admission takes one token and refill is
capped at the burst. -/
theorem tokenBucket_burst_deny_refill (st : TBState) (id : List Char)
    (R : ℚ) (B : ℕ) (t₀ : ℚ) (hR : 0 < R) (hB : 1 ≤ B) (ht : 0 ≤ t₀)
    (hstart :
      (st.limiters id = none ∧
        GetClientLimits st id = ⟨R, (B : ℤ)⟩) ∨
      st.limiters id = some (newLimiter R (B : ℤ))) :
    (tbAllowRun st id t₀ B).1 = List.replicate B true ∧
    (TBAllow (tbAllowRun st id t₀ B).2 id t₀).1 = false ∧
    (TBAllow (TBAllow (tbAllowRun st id t₀ B).2 id t₀).2 id
        (t₀ + 1 / R)).1 = true ∧
    (∀ (bk : Bucket) (u : ℚ), (bk.advance u).tokens ≤ bk.burst) := by
  have hbq1 : (1 : ℚ) ≤ ((B : ℤ) : ℚ) := by
    push_cast
    exact_mod_cast hB
  have hbq0 : (0 : ℚ) ≤ ((B : ℤ) : ℚ) := by linarith
  -- the first call acts on a fresh full limiter in both starting cases
  have hfirst : (TBAllow st id t₀).1 = ((newLimiter R (B : ℤ)).allow t₀).1 ∧
      (TBAllow st id t₀).2.limiters id =
        some ((newLimiter R (B : ℤ)).allow t₀).2 := by
    rcases hstart with ⟨hnone, hlim⟩ | hsome
    · have hga : getLimiter st id =
          (newLimiter R (B : ℤ),
            { st with
              limiters :=
                updKey st.limiters id (some (newLimiter R (B : ℤ))) }) := by
        unfold getLimiter
        rw [hnone, hlim]
      exact TBAllow_getLimiter st id t₀ _ _ hga
    · have hga : getLimiter st id = (newLimiter R (B : ℤ), st) := by
        unfold getLimiter
        rw [hsome]
      exact TBAllow_getLimiter st id t₀ _ _ hga
  -- the fresh limiter is full at time t₀
  have hadv0 : (newLimiter R (B : ℤ)).advance t₀ =
      ⟨R, ((B : ℤ) : ℚ), ((B : ℤ) : ℚ), t₀⟩ := by
    unfold newLimiter Bucket.advance
    have hmin : min ((B : ℤ) : ℚ) (((B : ℤ) : ℚ) + (t₀ - 0) * R) =
        ((B : ℤ) : ℚ) := by
      rw [sub_zero]
      exact min_eq_left (by nlinarith)
    show (⟨R, ((B : ℤ) : ℚ),
        min ((B : ℤ) : ℚ) (((B : ℤ) : ℚ) + (t₀ - 0) * R), t₀⟩ : Bucket) = _
    rw [hmin]
  have hallow0 : (newLimiter R (B : ℤ)).allow t₀ =
      (true, ⟨R, ((B : ℤ) : ℚ), ((B : ℤ) : ℚ) - 1, t₀⟩) := by
    unfold Bucket.allow
    rw [hadv0, if_pos hbq1]
  obtain ⟨Bp, rfl⟩ : ∃ Bp, B = Bp + 1 := ⟨B - 1, by omega⟩
  -- run the remaining Bp calls on the installed bucket
  have hrest := tbAllowRun_some id t₀ Bp (TBAllow st id t₀).2 _ hfirst.2
  have hsteady := allowRun_steady t₀ Bp
    (⟨R, (((Bp + 1 : ℕ) : ℤ) : ℚ), (((Bp + 1 : ℕ) : ℤ) : ℚ) - 1, t₀⟩ :
      Bucket)
    rfl
    (by
      show (((Bp + 1 : ℕ) : ℤ) : ℚ) - 1 ≤ (((Bp + 1 : ℕ) : ℤ) : ℚ)
      linarith)
    (by
      show (Bp : ℚ) ≤ (((Bp + 1 : ℕ) : ℤ) : ℚ) - 1
      push_cast
      linarith)
  have hz : (((Bp + 1 : ℕ) : ℤ) : ℚ) - 1 - (Bp : ℚ) = 0 := by
    push_cast
    ring
  have hbf :
      (allowRun ((newLimiter R ((Bp + 1 : ℕ) : ℤ)).allow t₀).2 t₀ Bp).2 =
      ⟨R, (((Bp + 1 : ℕ) : ℤ) : ℚ), 0, t₀⟩ := by
    rw [hallow0]
    dsimp only
    rw [hsteady]
    show (⟨R, (((Bp + 1 : ℕ) : ℤ) : ℚ),
        (((Bp + 1 : ℕ) : ℤ) : ℚ) - 1 - (Bp : ℚ), t₀⟩ : Bucket) = _
    rw [hz]
  have hlimf : (tbAllowRun st id t₀ (Bp + 1)).2.limiters id =
      some (⟨R, (((Bp + 1 : ℕ) : ℤ) : ℚ), 0, t₀⟩ : Bucket) := by
    show (tbAllowRun (TBAllow st id t₀).2 id t₀ Bp).2.limiters id = _
    rw [hrest.2, hbf]
  -- the deny step at t₀
  have hadv1 : (⟨R, (((Bp + 1 : ℕ) : ℤ) : ℚ), 0, t₀⟩ : Bucket).advance t₀ =
      ⟨R, (((Bp + 1 : ℕ) : ℤ) : ℚ), 0, t₀⟩ := by
    unfold Bucket.advance
    have hmin : min ((((Bp + 1 : ℕ) : ℤ) : ℚ)) ((0 : ℚ) + (t₀ - t₀) * R) =
        0 := by
      rw [sub_self, zero_mul, add_zero]
      exact min_eq_right hbq0
    show (⟨R, (((Bp + 1 : ℕ) : ℤ) : ℚ),
        min ((((Bp + 1 : ℕ) : ℤ) : ℚ)) ((0 : ℚ) + (t₀ - t₀) * R), t₀⟩ :
          Bucket) = _
    rw [hmin]
  have hallow1 : ((⟨R, (((Bp + 1 : ℕ) : ℤ) : ℚ), 0, t₀⟩ : Bucket).allow t₀) =
      (false, ⟨R, (((Bp + 1 : ℕ) : ℤ) : ℚ), 0, t₀⟩) := by
    unfold Bucket.allow
    rw [hadv1, if_neg (by norm_num)]
  have hTB1 := TBAllow_getLimiter (tbAllowRun st id t₀ (Bp + 1)).2 id t₀
    (⟨R, (((Bp + 1 : ℕ) : ℤ) : ℚ), 0, t₀⟩ : Bucket) _
    (by unfold getLimiter; rw [hlimf])
  -- the refill step at t₀ + 1/R
  have hlim2 :
      (TBAllow (tbAllowRun st id t₀ (Bp + 1)).2 id t₀).2.limiters id =
      some (⟨R, (((Bp + 1 : ℕ) : ℤ) : ℚ), 0, t₀⟩ : Bucket) := by
    rw [hTB1.2, hallow1]
  have hadv2 : (⟨R, (((Bp + 1 : ℕ) : ℤ) : ℚ), 0, t₀⟩ : Bucket).advance
      (t₀ + 1 / R) =
      ⟨R, (((Bp + 1 : ℕ) : ℤ) : ℚ), 1, t₀ + 1 / R⟩ := by
    unfold Bucket.advance
    have hone : min ((((Bp + 1 : ℕ) : ℤ) : ℚ))
        ((0 : ℚ) + (t₀ + 1 / R - t₀) * R) = 1 := by
      have h1 : (0 : ℚ) + (t₀ + 1 / R - t₀) * R = 1 := by
        field_simp
        ring
      rw [h1]
      exact min_eq_right hbq1
    show (⟨R, (((Bp + 1 : ℕ) : ℤ) : ℚ),
        min ((((Bp + 1 : ℕ) : ℤ) : ℚ)) ((0 : ℚ) + (t₀ + 1 / R - t₀) * R),
        t₀ + 1 / R⟩ : Bucket) = _
    rw [hone]
  have hallow2 : ((⟨R, (((Bp + 1 : ℕ) : ℤ) : ℚ), 0, t₀⟩ : Bucket).allow
      (t₀ + 1 / R)).1 = true := by
    unfold Bucket.allow
    rw [hadv2, if_pos (by norm_num)]
  have hTB2 := TBAllow_getLimiter
    (TBAllow (tbAllowRun st id t₀ (Bp + 1)).2 id t₀).2 id (t₀ + 1 / R)
    (⟨R, (((Bp + 1 : ℕ) : ℤ) : ℚ), 0, t₀⟩ : Bucket) _
    (by unfold getLimiter; rw [hlim2])
  refine ⟨?_, ?_, ?_, ?_⟩
  · show (TBAllow st id t₀).1 ::
        (tbAllowRun (TBAllow st id t₀).2 id t₀ Bp).1 =
      List.replicate (Bp + 1) true
    rw [hfirst.1, hrest.1, hallow0]
    dsimp only
    rw [hsteady]
    rfl
  · rw [hTB1.1, hallow1]
  · rw [hTB2.1, hallow2]
  · intro bk u
    exact min_le_left _ _

/-- Witness for C4: a fresh default-limits client with rate 1 and
burst 1 gets its first request admitted. -/
theorem tokenBucket_burst_deny_refill_witness :
    (tbAllowRun ⟨1, 1, fun _ => none, fun _ => none⟩ "a".data 0 1).1 =
      List.replicate 1 true :=
  (tokenBucket_burst_deny_refill ⟨1, 1, fun _ => none, fun _ => none⟩
    "a".data 1 1 0 (by norm_num) (by norm_num) (by norm_num)
    (Or.inl ⟨rfl, rfl⟩)).1

end CloudBalancer
